import Mathlib

/-! appsody `cmd/build.go`: option validation and argument assembly.

A shallow embedding of `checkDockerBuildOptions` and `build` from
`cmd/build.go`, together with the parts of the Go standard library they call
(`strings.TrimPrefix`, `strings.TrimSuffix`, `strings.Split`,
`regexp.MatchString`).

Go strings are modelled as lists of characters.  All the characters the code
inspects (space, `=`, `-`, letters, newline) are ASCII, so splitting and
matching on characters agrees with Go's byte-level behaviour on UTF-8 text.
-/

namespace Appsody

/-- A Go `string`. -/
abbrev GoString := List Char

/-! ## `strings` -/

/-- Go `strings.HasPrefix`. -/
def HasPrefix (s pre : GoString) : Bool := pre.isPrefixOf s

/-- Go `strings.HasSuffix`. -/
def HasSuffix (s suf : GoString) : Bool := suf.isSuffixOf s

/-- Go `strings.TrimPrefix`: `s` without the leading `pre`, or `s` itself when
`s` does not start with `pre`. -/
def TrimPrefix (s pre : GoString) : GoString :=
  if HasPrefix s pre then s.drop pre.length else s

/-- Go `strings.TrimSuffix`: `s` without the trailing `suf`, or `s` itself when
`s` does not end with `suf`. -/
def TrimSuffix (s suf : GoString) : GoString :=
  if HasSuffix s suf then s.take (s.length - suf.length) else s

/-- The scanning loop of Go `strings.Split` for a non-empty separator: `cur` is
the piece collected so far, `skip` counts the characters of a separator
occurrence that are still to be stepped over. -/
def splitLoop (sep : GoString) : GoString → Nat → GoString → List GoString
  | [], _, cur => [cur]
  | _ :: cs, skip + 1, cur => splitLoop sep cs skip cur
  | c :: cs, 0, cur =>
    if sep.isPrefixOf (c :: cs) then cur :: splitLoop sep cs (sep.length - 1) []
    else splitLoop sep cs 0 (cur ++ [c])

/-- Go `strings.Split`: the substrings of `s` between the occurrences of
`sep`; with an empty `sep` the string is exploded into its characters. -/
def Split (s sep : GoString) : List GoString :=
  if sep = [] then s.map (fun c => [c]) else splitLoop sep s 0 []

/-- Go `strings.Join`. -/
def Join (elems : List GoString) (sep : GoString) : GoString :=
  sep.intercalate elems

/-! ## `regexp` -/

/-- The operators of Go's `regexp/syntax` that the patterns of this file use. -/
inductive Regexp where
  /-- `OpLiteral`: a run of literal characters. -/
  | literal (rs : GoString)
  /-- `OpAnyCharNotNL`: `.` (without the `s` flag). -/
  | anyCharNotNL
  /-- `OpBeginText`: `^` (without the `m` flag). -/
  | beginText
  /-- `OpEndText`: `$` (without the `m` flag). -/
  | endText
  /-- `OpCapture`: a parenthesised group. -/
  | capture (sub : Regexp)
  /-- `OpStar`: `sub*`. -/
  | star (sub : Regexp)
  /-- `OpQuest`: `sub?`. -/
  | quest (sub : Regexp)
  /-- `OpConcat`. -/
  | concat (a b : Regexp)
  /-- `OpAlternate`. -/
  | alternate (a b : Regexp)

/-- A position in the text being matched: the number of characters already
consumed and the characters still ahead. -/
abbrev Cursor := Nat × GoString

/-- Zero or more rounds of `step`, each of which has to consume input. -/
def starLoop (step : Cursor → List Cursor) : Nat → Cursor → List Cursor
  | 0, c => [c]
  | fuel + 1, c =>
    ((step c).filter (fun d => d.2.length < c.2.length)).flatMap (starLoop step fuel) ++ [c]

/-- All positions at which a match of the expression that starts at the given
position can end. -/
def Regexp.ends : Regexp → Cursor → List Cursor
  | .literal rs, c => if rs.isPrefixOf c.2 then [(c.1 + rs.length, c.2.drop rs.length)] else []
  | .anyCharNotNL, c =>
    match c.2 with
    | [] => []
    | x :: xs => if x = '\n' then [] else [(c.1 + 1, xs)]
  | .beginText, c => if c.1 = 0 then [c] else []
  | .endText, c => if c.2 = [] then [c] else []
  | .capture sub, c => sub.ends c
  | .star sub, c => starLoop sub.ends c.2.length c
  | .quest sub, c => sub.ends c ++ [c]
  | .concat a b, c => (a.ends c).flatMap b.ends
  | .alternate a b, c => a.ends c ++ b.ends c

/-- Whether a match of the expression starts at this position or at a later
one. -/
def Regexp.search (re : Regexp) : Nat → GoString → Bool
  | n, [] => !(re.ends (n, [])).isEmpty
  | n, x :: xs => !(re.ends (n, x :: xs)).isEmpty || re.search (n + 1) xs

/-- Go `(*Regexp).MatchString`: whether the string contains any match of the
expression. -/
def MatchString (re : Regexp) (s : GoString) : Bool := re.search 0 s

/-! ## `cmd/build.go`: the option validator -/

/-- A Go `error` value.  `external` is an error made by a collaborator (the
identifier tells distinct values with the same text apart), `errorf` is one
made by `errors.Errorf` in `build.go`. -/
inductive GoError where
  | external (id : Nat) (text : GoString)
  | errorf (text : GoString)
  deriving DecidableEq

/-- The text of an error, as `Error()` and the `%v` verb give it. -/
def GoError.Error : GoError → GoString
  | .external _ text => text
  | .errorf text => text

/-- The four flags that `build` sets itself. -/
def reservedFlags : List GoString :=
  ["-t".toList, "--tag".toList, "-f".toList, "--file".toList]

/-- The pattern `buildOptionsTest` of `checkDockerBuildOptions`, parsed:
`(^((-t)|(--tag)|(-f)|(--file))((=?$)|(=.*)))`. -/
def buildOptionsTest : Regexp :=
  .capture (.concat .beginText (.concat
    (.capture (.alternate (.capture (.literal "-t".toList))
      (.alternate (.capture (.literal "--tag".toList))
        (.alternate (.capture (.literal "-f".toList))
          (.capture (.literal "--file".toList))))))
    (.capture (.alternate
      (.capture (.concat (.quest (.literal "=".toList)) .endText))
      (.capture (.concat (.literal "=".toList) (.star .anyCharNotNL)))))))

/-- The loop of `checkDockerBuildOptions`: the first option that the
expression matches is reported in an error, and no match gives `nil`. -/
def checkDockerBuildOptionsLoop (re : Regexp) : List GoString → Option GoError
  | [] => none
  | value :: rest =>
    if MatchString re value then
      some (.errorf (value ++ " is not allowed in --docker-options".toList))
    else checkDockerBuildOptionsLoop re rest

/-- The function `checkDockerBuildOptions` of `cmd/build.go`. -/
def checkDockerBuildOptions (options : List GoString) : Option GoError :=
  checkDockerBuildOptionsLoop buildOptionsTest options

/-- The pattern `^(-t|--tag|-f|--file)(=.*)?$` of the specification's testable
properties, parsed. -/
def specPattern : Regexp :=
  .concat .beginText (.concat
    (.capture (.alternate (.literal "-t".toList)
      (.alternate (.literal "--tag".toList)
        (.alternate (.literal "-f".toList) (.literal "--file".toList)))))
    (.concat (.quest (.capture (.concat (.literal "=".toList) (.star .anyCharNotNL))))
      .endText))

/-! ## `cmd/build.go`: the build command -/

/-- The fields of `RootCommandConfig` that `build` reads. -/
structure RootCommandConfig where
  Verbose : Bool
  Dryrun : Bool
  deriving DecidableEq

/-- The struct `buildCommandConfig`. -/
structure buildCommandConfig where
  root : RootCommandConfig
  tag : GoString
  dockerBuildOptions : GoString
  deriving DecidableEq

/-- What the functions called by `build` and defined outside `build.go` do in
one run of the command. -/
structure Collaborators where
  /-- The result of `extract(extractConfig)`. -/
  extract : Option GoError
  /-- The result pair of `getProjectName(config.RootCommandConfig)`. -/
  getProjectName : GoString × Option GoError
  /-- The result of `getHome(config.RootCommandConfig)`. -/
  getHome : GoString
  /-- The result of `DockerBuild(cmdArgs, DockerLog, verbose, dryrun)`. -/
  DockerBuild : List GoString → Bool → Bool → Option GoError
  /-- The function `filepath.Join`. -/
  filepathJoin : List GoString → GoString

/-- The calls that `build` makes to its collaborators, as they are observed
from outside. -/
inductive Event where
  | extract
  | getProjectName
  | getHome
  | debugLog (args : List GoString) (cmdArgs : List GoString)
  | DockerBuild (cmdArgs : List GoString) (verbose dryrun : Bool)
  | infoLog (args : List GoString)
  deriving DecidableEq

/-- The image name of `build`: the project name, or the tag when one is
given. -/
def buildImage (config : buildCommandConfig) (projectName : GoString) : GoString :=
  if config.tag ≠ [] then config.tag else projectName

/-- The directory `extractDir` of `build`. -/
def extractDir (w : Collaborators) (projectName : GoString) : GoString :=
  w.filepathJoin [w.getHome, "extract".toList, projectName]

/-- The path `dockerfile` of `build`. -/
def dockerfile (w : Collaborators) (projectName : GoString) : GoString :=
  w.filepathJoin [extractDir w projectName, "Dockerfile".toList]

/-- The three lines of `build` that turn the `--docker-options` string into
option tokens. -/
def splitDockerBuildOptions (raw : GoString) : List GoString :=
  let dockerBuildOptions := TrimPrefix raw " ".toList
  let dockerBuildOptions := TrimSuffix dockerBuildOptions " ".toList
  Split dockerBuildOptions " ".toList

/-- The function `build` of `cmd/build.go`: the returned error (`none` for
`nil`) and the calls made, in order. -/
def build (w : Collaborators) (config : buildCommandConfig) : Option GoError × List Event :=
  match w.extract with
  | some extractErr => (some extractErr, [.extract])
  | none =>
    match w.getProjectName with
    | (_, some perr) => (some (.errorf perr.Error), [.extract, .getProjectName])
    | (projectName, none) =>
      let extractDir := extractDir w projectName
      let dockerfile := dockerfile w projectName
      let buildImage := buildImage config projectName
      let cmdArgs := ["-t".toList, buildImage]
      let checked : Except GoError (List GoString) :=
        if config.dockerBuildOptions ≠ [] then
          let options := splitDockerBuildOptions config.dockerBuildOptions
          match checkDockerBuildOptions options with
          | some err => .error err
          | none => .ok (cmdArgs ++ options)
        else .ok cmdArgs
      match checked with
      | .error err => (some err, [.extract, .getProjectName, .getHome])
      | .ok cmdArgs =>
        let cmdArgs := cmdArgs ++ ["-f".toList, dockerfile, extractDir]
        let calls := [.extract, .getProjectName, .getHome,
          .debugLog ["final cmd args".toList] cmdArgs,
          .DockerBuild cmdArgs config.root.Verbose config.root.Dryrun]
        match w.DockerBuild cmdArgs config.root.Verbose config.root.Dryrun with
        | some execError => (some execError, calls)
        | none =>
          if !config.root.Dryrun then
            (none, calls ++ [.infoLog ["Built docker image ".toList, buildImage]])
          else (none, calls)

/-! ## Notions used to state the properties -/

/-- Whether an option token is one of the reserved flags, bare or directly
followed by `=` and any value. -/
def reservedOption (tok : GoString) : Bool :=
  reservedFlags.any (fun p => tok == p || (p ++ "=".toList).isPrefixOf tok)

/-- Whether an option token starts with one of the reserved flags. -/
def startsWithReservedFlag (tok : GoString) : Bool :=
  reservedFlags.any (fun p => p.isPrefixOf tok)

/-- The option tokens that `build` passes on: none for an empty
`--docker-options` string, otherwise the tokens the string is split into. -/
def userOptions (raw : GoString) : List GoString :=
  if raw = [] then [] else splitDockerBuildOptions raw

/-- The argument lists of the `DockerBuild` calls among the observed calls. -/
def dockerBuildCalls : List Event → List (List GoString)
  | [] => []
  | .DockerBuild cmdArgs _ _ :: rest => cmdArgs :: dockerBuildCalls rest
  | _ :: rest => dockerBuildCalls rest

/-- The arguments of the `Info.log` calls among the observed calls. -/
def confirmations : List Event → List (List GoString)
  | [] => []
  | .infoLog args :: rest => args :: confirmations rest
  | _ :: rest => confirmations rest

/-- The argument list that `build` assembles around the option tokens. -/
def cmdArgs (w : Collaborators) (config : buildCommandConfig) (projectName : GoString)
    (options : List GoString) : List GoString :=
  ["-t".toList, buildImage config projectName] ++ options ++
    ["-f".toList, dockerfile w projectName, extractDir w projectName]

/-- A run in which every collaborator succeeds: the project is `myapp`, the
home directory is `/home/user/.appsody`, and paths are joined with `/`. -/
def sampleRun : Collaborators where
  extract := none
  getProjectName := ("myapp".toList, none)
  getHome := "/home/user/.appsody".toList
  DockerBuild := fun _ _ _ => none
  filepathJoin := fun elems => Join elems "/".toList

/-- A request without a tag, with `--docker-options " --build-arg FOO=bar "`. -/
def sampleConfig : buildCommandConfig where
  root := ⟨false, false⟩
  tag := []
  dockerBuildOptions := " --build-arg FOO=bar ".toList

/-- A run in which `extract` fails. -/
def failedExtractRun : Collaborators where
  extract := some (.external 0 "extract failed".toList)
  getProjectName := ("myapp".toList, none)
  getHome := "/home/user/.appsody".toList
  DockerBuild := fun _ _ _ => none
  filepathJoin := fun elems => Join elems "/".toList

/-! ## Auxiliary facts -/

theorem starLoop_ne_nil (step : Cursor → List Cursor) (fuel : Nat) (c : Cursor) :
    starLoop step fuel c ≠ [] := by
  cases fuel <;> simp [starLoop]

theorem search_beginText_pos (r : Regexp) (t : GoString) (n : Nat) :
    (Regexp.concat .beginText r).search (n + 1) t = false := by
  induction t generalizing n with
  | nil => simp [Regexp.search, Regexp.ends]
  | cons x xs ih => simp [Regexp.search, Regexp.ends, ih]

theorem matchString_beginText (r : Regexp) (t : GoString) :
    MatchString (.concat .beginText r) t = !(r.ends (0, t)).isEmpty := by
  cases t with
  | nil => simp [MatchString, Regexp.search, Regexp.ends]
  | cons x xs => simp [MatchString, Regexp.search, Regexp.ends, search_beginText_pos]

theorem prefix_and_rest_iff (p tok : GoString) :
    (p.isPrefixOf tok = true ∧ (tok.drop p.length = [] ∨ ∃ v, tok.drop p.length = '=' :: v)) ↔
      (tok = p ∨ ∃ v, tok = p ++ '=' :: v) := by
  constructor
  · rintro ⟨hp, h⟩
    rw [List.isPrefixOf_iff_prefix] at hp
    obtain ⟨s, rfl⟩ := hp
    simp only [List.drop_left] at h
    rcases h with h | ⟨v, h⟩
    · left; simp [h]
    · right; exact ⟨v, by rw [h]⟩
  · rintro (rfl | ⟨v, rfl⟩)
    · simp
    · refine ⟨by simp [List.isPrefixOf_iff_prefix], Or.inr ⟨v, by simp⟩⟩

theorem reservedOption_iff (tok : GoString) :
    reservedOption tok = true ↔ ∃ p ∈ reservedFlags, tok = p ∨ ∃ v, tok = p ++ '=' :: v := by
  unfold reservedOption
  rw [List.any_eq_true]
  constructor
  · rintro ⟨p, hp, h⟩
    refine ⟨p, hp, ?_⟩
    simp only [Bool.or_eq_true, beq_iff_eq, List.isPrefixOf_iff_prefix] at h
    rcases h with h | ⟨s, h⟩
    · exact Or.inl h
    · right; exact ⟨s, by rw [← h]; simp⟩
  · rintro ⟨p, hp, h⟩
    refine ⟨p, hp, ?_⟩
    simp only [Bool.or_eq_true, beq_iff_eq, List.isPrefixOf_iff_prefix]
    rcases h with h | ⟨v, h⟩
    · exact Or.inl h
    · right; exact ⟨v, by rw [h]; simp⟩

/-- The second half of `buildOptionsTest`: `((=?$)|(=.*))`. -/
theorem buildOptionsTest_tail (c : Cursor) :
    (Regexp.capture (.alternate
      (.capture (.concat (.quest (.literal "=".toList)) .endText))
      (.capture (.concat (.literal "=".toList) (.star .anyCharNotNL))))).ends c ≠ [] ↔
      (c.2 = [] ∨ ∃ v, c.2 = '=' :: v) := by
  obtain ⟨n, t⟩ := c
  cases t with
  | nil => simp [Regexp.ends]
  | cons x xs =>
    by_cases hx : x = '='
    · subst hx
      simp [Regexp.ends, starLoop_ne_nil]
    · simp [Regexp.ends, hx, Ne.symm hx]

theorem search_capture (r : Regexp) (n : Nat) (t : GoString) :
    (Regexp.capture r).search n t = r.search n t := by
  induction t generalizing n with
  | nil => simp [Regexp.search, Regexp.ends]
  | cons x xs ih => simp [Regexp.search, Regexp.ends, ih]

/-- The first half of `buildOptionsTest`: `((-t)|(--tag)|(-f)|(--file))`. -/
theorem buildOptionsTest_flags (c d : Cursor) :
    d ∈ (Regexp.capture (.alternate (.capture (.literal "-t".toList))
      (.alternate (.capture (.literal "--tag".toList))
        (.alternate (.capture (.literal "-f".toList))
          (.capture (.literal "--file".toList)))))).ends c ↔
      ∃ p ∈ reservedFlags, p.isPrefixOf c.2 = true ∧ d = (c.1 + p.length, c.2.drop p.length) := by
  simp only [Regexp.ends, reservedFlags, List.mem_append, List.mem_ite_nil_right,
    List.mem_singleton, List.mem_cons, exists_eq_or_imp, List.not_mem_nil, false_and,
    exists_false, or_false, exists_eq_left]

theorem ends_concat_ne_nil (a b : Regexp) (c : Cursor) :
    (Regexp.concat a b).ends c ≠ [] ↔ ∃ d ∈ a.ends c, b.ends d ≠ [] := by
  simp [Regexp.ends]

theorem matchString_buildOptionsTest (tok : GoString) :
    MatchString buildOptionsTest tok = reservedOption tok := by
  rw [Bool.eq_iff_iff, reservedOption_iff]
  unfold buildOptionsTest MatchString
  rw [search_capture]
  have h := matchString_beginText
  unfold MatchString at h
  rw [h]
  simp only [Bool.not_eq_true', List.isEmpty_eq_false]
  rw [ends_concat_ne_nil]
  constructor
  · rintro ⟨d, hd, hT⟩
    rw [buildOptionsTest_flags] at hd
    obtain ⟨p, hp, hpre, rfl⟩ := hd
    rw [buildOptionsTest_tail] at hT
    exact ⟨p, hp, (prefix_and_rest_iff p tok).1 ⟨hpre, hT⟩⟩
  · rintro ⟨p, hp, h⟩
    obtain ⟨hpre, hT⟩ := (prefix_and_rest_iff p tok).2 h
    refine ⟨(0 + p.length, tok.drop p.length), ?_, ?_⟩
    · rw [buildOptionsTest_flags]
      exact ⟨p, hp, hpre, rfl⟩
    · rw [buildOptionsTest_tail]
      exact hT

theorem splitLoop_space_cons (rest cur : GoString) :
    splitLoop [' '] (' ' :: rest) 0 cur = cur :: splitLoop [' '] rest 0 [] := by
  simp [splitLoop]

theorem splitLoop_append_of_no_space (t rest cur : GoString) (ht : ' ' ∉ t) :
    splitLoop [' '] (t ++ rest) 0 cur = splitLoop [' '] rest 0 (cur ++ t) := by
  induction t generalizing cur with
  | nil => simp
  | cons x xs ih =>
    have hx : x ≠ ' ' := fun h => ht (by simp [h])
    have hxs : ' ' ∉ xs := fun h => ht (by simp [h])
    simp [splitLoop, Ne.symm hx, ih _ hxs]

theorem splitLoop_ne_nil (sep s : GoString) (skip : Nat) (cur : GoString) :
    splitLoop sep s skip cur ≠ [] := by
  induction s generalizing skip cur with
  | nil => simp [splitLoop]
  | cons x xs ih =>
    cases skip with
    | zero =>
      simp only [splitLoop]
      split
      · simp
      · exact ih _ _
    | succ k => simpa [splitLoop] using ih _ _

theorem join_cons_cons (t u : GoString) (us : List GoString) (sep : GoString) :
    Join (t :: u :: us) sep = t ++ sep ++ Join (u :: us) sep := by
  simp [Join, List.intercalate, List.intersperse]

theorem join_singleton (t sep : GoString) : Join [t] sep = t := by
  simp [Join, List.intercalate, List.intersperse]

theorem splitLoop_join_of_no_space (t : GoString) (ts : List GoString)
    (hts : ∀ u ∈ t :: ts, ' ' ∉ u) (cur : GoString) :
    splitLoop [' '] (Join (t :: ts) [' ']) 0 cur = (cur ++ t) :: ts := by
  induction ts generalizing t cur with
  | nil =>
    have h := splitLoop_append_of_no_space t [] cur (hts t (by simp))
    simp only [List.append_nil] at h
    rw [join_singleton, h]
    simp [splitLoop]
  | cons u us ih =>
    rw [join_cons_cons, List.append_assoc,
      splitLoop_append_of_no_space _ _ _ (hts t (by simp))]
    have hu := ih u (fun v hv => hts v (List.mem_cons_of_mem _ hv)) []
    simp only [List.singleton_append, splitLoop_space_cons, hu, List.nil_append]

theorem split_join_of_no_space (ts : List GoString) (hne : ts ≠ [])
    (hts : ∀ t ∈ ts, ' ' ∉ t) : Split (Join ts [' ']) [' '] = ts := by
  cases ts with
  | nil => exact absurd rfl hne
  | cons t ts =>
    have h := splitLoop_join_of_no_space t ts hts []
    simpa [Split] using h

theorem join_splitLoop (s cur : GoString) :
    Join (splitLoop [' '] s 0 cur) [' '] = cur ++ s := by
  induction s generalizing cur with
  | nil => simp [splitLoop, join_singleton]
  | cons x xs ih =>
    by_cases hx : x = ' '
    · subst hx
      rw [splitLoop_space_cons]
      have hne := splitLoop_ne_nil [' '] xs 0 []
      have hxs := ih []
      cases hsp : splitLoop [' '] xs 0 [] with
      | nil => exact absurd hsp hne
      | cons y ys =>
        rw [hsp] at hxs
        rw [join_cons_cons, hxs]
        simp
    · have h := ih (cur ++ [x])
      simp only [splitLoop, List.isPrefixOf_cons₂, List.isPrefixOf_nil_left, Bool.and_true,
        beq_iff_eq, Ne.symm hx, if_false]
      simpa using h

theorem join_split (s : GoString) : Join (Split s [' ']) [' '] = s := by
  simpa [Split] using join_splitLoop s []

theorem build_of_extract_failed (w : Collaborators) (config : buildCommandConfig) (e : GoError)
    (hx : w.extract = some e) : build w config = (some e, [.extract]) := by
  simp [build, hx]

theorem build_of_projectName_failed (w : Collaborators) (config : buildCommandConfig)
    (name : GoString) (e : GoError)
    (hx : w.extract = none) (hn : w.getProjectName = (name, some e)) :
    build w config = (some (.errorf e.Error), [.extract, .getProjectName]) := by
  simp [build, hx, hn]

theorem build_of_rejected (w : Collaborators) (config : buildCommandConfig) (name : GoString)
    (err : GoError) (hx : w.extract = none) (hn : w.getProjectName = (name, none))
    (hv : checkDockerBuildOptions (userOptions config.dockerBuildOptions) = some err) :
    build w config = (some err, [.extract, .getProjectName, .getHome]) := by
  unfold userOptions at hv
  by_cases hraw : config.dockerBuildOptions = []
  · simp [hraw, checkDockerBuildOptions, checkDockerBuildOptionsLoop] at hv
  · rw [if_neg hraw] at hv
    simp [build, hx, hn, hraw, hv]

theorem build_of_accepted (w : Collaborators) (config : buildCommandConfig) (name : GoString)
    (hx : w.extract = none) (hn : w.getProjectName = (name, none))
    (hv : checkDockerBuildOptions (userOptions config.dockerBuildOptions) = none) :
    build w config =
      (w.DockerBuild (cmdArgs w config name (userOptions config.dockerBuildOptions))
          config.root.Verbose config.root.Dryrun,
        [.extract, .getProjectName, .getHome,
          .debugLog ["final cmd args".toList]
            (cmdArgs w config name (userOptions config.dockerBuildOptions)),
          .DockerBuild (cmdArgs w config name (userOptions config.dockerBuildOptions))
            config.root.Verbose config.root.Dryrun] ++
          (if w.DockerBuild (cmdArgs w config name (userOptions config.dockerBuildOptions))
              config.root.Verbose config.root.Dryrun = none ∧ config.root.Dryrun = false
            then [.infoLog ["Built docker image ".toList, buildImage config name]] else [])) := by
  unfold userOptions cmdArgs at *
  by_cases hraw : config.dockerBuildOptions = []
  · simp only [build, hx, hn, hraw, if_true, ne_eq, not_true_eq_false, if_false,
      List.append_nil]
    generalize w.DockerBuild _ _ _ = r
    cases r <;> cases config.root.Dryrun <;> simp
  · rw [if_neg hraw] at hv
    simp only [build, hx, hn, hraw, if_false, hv, ne_eq, not_false_eq_true, if_true]
    generalize w.DockerBuild _ _ _ = r
    cases r <;> cases config.root.Dryrun <;> simp

theorem starLoop_dot_reaches_end (v : GoString) (fuel n : Nat) (hf : v.length ≤ fuel) :
    (∃ d ∈ starLoop Regexp.anyCharNotNL.ends fuel (n, v), d.2 = []) ↔ '\n' ∉ v := by
  induction v generalizing fuel n with
  | nil => cases fuel <;> simp [starLoop, Regexp.ends]
  | cons x xs ih =>
    cases fuel with
    | zero => simp at hf
    | succ f =>
      have hf' : xs.length ≤ f := by simpa using hf
      by_cases hx : x = '\n'
      · subst hx
        simp [starLoop, Regexp.ends]
      · have h := ih f (n + 1) hf'
        simp only [starLoop, Regexp.ends, hx, if_false]
        simp only [List.filter_cons, List.length_cons, Nat.lt_succ_self, decide_True, if_true,
          List.filter_nil, List.flatMap_cons, List.flatMap_nil, List.append_nil,
          List.mem_append, List.mem_singleton]
        constructor
        · rintro ⟨d, hd | hd, hd2⟩
          · have := h.1 ⟨d, hd, hd2⟩
            simp [this, Ne.symm hx]
          · subst hd
            simp at hd2
        · intro hv
          have hv' : '\n' ∉ xs := fun hm => hv (List.mem_cons_of_mem _ hm)
          obtain ⟨d, hd, hd2⟩ := h.2 hv'
          exact ⟨d, Or.inl hd, hd2⟩

/-- The second half of `specPattern`: `(=.*)?$`. -/
theorem specPattern_tail (c : Cursor) :
    (Regexp.concat (.quest (.capture (.concat (.literal "=".toList) (.star .anyCharNotNL))))
      .endText).ends c ≠ [] ↔ (c.2 = [] ∨ ∃ v, c.2 = '=' :: v ∧ '\n' ∉ v) := by
  obtain ⟨n, t⟩ := c
  cases t with
  | nil => simp [Regexp.ends]
  | cons x xs =>
    by_cases hx : x = '='
    · subst hx
      have h := starLoop_dot_reaches_end xs xs.length (n + 1) (Nat.le_refl _)
      simp only [Regexp.ends, List.isPrefixOf_cons₂, List.isPrefixOf_nil_left, Bool.and_true,
        beq_self_eq_true, if_true, String.toList, List.flatMap_cons, List.flatMap_nil,
        List.append_nil, List.flatMap_append, ne_eq, List.append_eq_nil, not_and,
        List.cons_ne_nil, if_false, false_or, reduceCtorEq, imp_false, List.cons.injEq,
        true_and, exists_eq_left', List.length_cons, List.length_nil, List.drop_succ_cons,
        List.drop_zero]
      rw [← h, List.flatMap_eq_nil_iff]
      constructor
      · intro hne
        by_contra hcon
        apply hne
        intro d hd
        by_cases hd2 : d.2 = []
        · exact absurd ⟨d, hd, hd2⟩ hcon
        · simp [hd2]
      · rintro ⟨d, hd, hd2⟩ hall
        have := hall d hd
        simp [hd2] at this
    · simp [Regexp.ends, hx, Ne.symm hx]

theorem prefix_and_value_iff (Q : GoString → Prop) (p tok : GoString) :
    (p.isPrefixOf tok = true ∧
        (tok.drop p.length = [] ∨ ∃ v, tok.drop p.length = '=' :: v ∧ Q v)) ↔
      (tok = p ∨ ∃ v, tok = p ++ '=' :: v ∧ Q v) := by
  constructor
  · rintro ⟨hp, h⟩
    rw [List.isPrefixOf_iff_prefix] at hp
    obtain ⟨s, rfl⟩ := hp
    simp only [List.drop_left] at h
    rcases h with h | ⟨v, h, hq⟩
    · left; simp [h]
    · right; exact ⟨v, by rw [h], hq⟩
  · rintro (rfl | ⟨v, rfl, hq⟩)
    · simp
    · refine ⟨by simp [List.isPrefixOf_iff_prefix], Or.inr ⟨v, by simp, hq⟩⟩

/-- The first half of `specPattern`: `(-t|--tag|-f|--file)`. -/
theorem specPattern_flags (c d : Cursor) :
    d ∈ (Regexp.capture (.alternate (.literal "-t".toList)
      (.alternate (.literal "--tag".toList)
        (.alternate (.literal "-f".toList) (.literal "--file".toList))))).ends c ↔
      ∃ p ∈ reservedFlags, p.isPrefixOf c.2 = true ∧ d = (c.1 + p.length, c.2.drop p.length) := by
  simp only [Regexp.ends, reservedFlags, List.mem_append, List.mem_ite_nil_right,
    List.mem_singleton, List.mem_cons, exists_eq_or_imp, List.not_mem_nil, false_and,
    exists_false, or_false, exists_eq_left]

theorem matchString_specPattern_iff (tok : GoString) :
    MatchString specPattern tok = true ↔
      ∃ p ∈ reservedFlags, tok = p ∨ ∃ v, tok = p ++ '=' :: v ∧ '\n' ∉ v := by
  unfold specPattern
  rw [matchString_beginText]
  simp only [Bool.not_eq_true', List.isEmpty_eq_false]
  rw [ends_concat_ne_nil]
  constructor
  · rintro ⟨d, hd, hT⟩
    rw [specPattern_flags] at hd
    obtain ⟨p, hp, hpre, rfl⟩ := hd
    rw [specPattern_tail] at hT
    exact ⟨p, hp, (prefix_and_value_iff _ p tok).1 ⟨hpre, hT⟩⟩
  · rintro ⟨p, hp, h⟩
    obtain ⟨hpre, hT⟩ := (prefix_and_value_iff (fun v => '\n' ∉ v) p tok).2 h
    refine ⟨(0 + p.length, tok.drop p.length), ?_, ?_⟩
    · rw [specPattern_flags]
      exact ⟨p, hp, hpre, rfl⟩
    · rw [specPattern_tail]
      exact hT

theorem reservedOption_of_specPattern (tok : GoString)
    (h : MatchString specPattern tok = true) : reservedOption tok = true := by
  rw [matchString_specPattern_iff] at h
  rw [reservedOption_iff]
  obtain ⟨p, hp, h⟩ := h
  refine ⟨p, hp, ?_⟩
  rcases h with h | ⟨v, h, _⟩
  · exact Or.inl h
  · exact Or.inr ⟨v, h⟩

theorem specPattern_of_reservedOption (tok : GoString) (hnl : '\n' ∉ tok)
    (h : reservedOption tok = true) : MatchString specPattern tok = true := by
  rw [matchString_specPattern_iff]
  rw [reservedOption_iff] at h
  obtain ⟨p, hp, h⟩ := h
  refine ⟨p, hp, ?_⟩
  rcases h with h | ⟨v, h⟩
  · exact Or.inl h
  · refine Or.inr ⟨v, h, fun hv => hnl ?_⟩
    rw [h]
    simp [hv]

theorem checkDockerBuildOptions_eq_find (options : List GoString) :
    checkDockerBuildOptions options =
      (options.find? reservedOption).map
        (fun tok => GoError.errorf (tok ++ " is not allowed in --docker-options".toList)) := by
  unfold checkDockerBuildOptions
  induction options with
  | nil => rfl
  | cons x xs ih =>
    simp only [checkDockerBuildOptionsLoop, matchString_buildOptionsTest, List.find?_cons]
    cases hx : reservedOption x
    · simpa using ih
    · simp

theorem checkDockerBuildOptions_eq_none_iff (options : List GoString) :
    checkDockerBuildOptions options = none ↔ ∀ tok ∈ options, reservedOption tok = false := by
  rw [checkDockerBuildOptions_eq_find]
  simp

theorem trimPrefix_space_cons (s : GoString) : TrimPrefix (' ' :: s) [' '] = s := by
  simp [TrimPrefix, HasPrefix]

theorem trimSuffix_append_space (s : GoString) : TrimSuffix (s ++ [' ']) [' '] = s := by
  simp [TrimSuffix, HasSuffix]

theorem trimPrefix_of_no_space (a r : GoString) (ha : a ≠ []) (hs : ' ' ∉ a) :
    TrimPrefix (a ++ r) [' '] = a ++ r := by
  cases a with
  | nil => exact absurd rfl ha
  | cons x xs =>
    have hx : x ≠ ' ' := fun h => hs (by simp [h])
    simp [TrimPrefix, HasPrefix, Ne.symm hx]

theorem trimSuffix_of_no_space (l b : GoString) (hb : b ≠ []) (hs : ' ' ∉ b) :
    TrimSuffix (l ++ b) [' '] = l ++ b := by
  have hsuf : ¬ ([' '] <:+ l ++ b) := by
    rintro ⟨t, ht⟩
    have hlast : (l ++ b).getLast? = some ' ' := by rw [← ht]; simp
    rw [List.getLast?_append_of_ne_nil _ hb] at hlast
    exact hs (List.mem_of_getLast?_eq_some hlast)
  simp [TrimSuffix, HasSuffix, hsuf]

theorem splitLoop_replicate_space (n : Nat) (rest cur : GoString) :
    splitLoop [' '] (List.replicate (n + 1) ' ' ++ rest) 0 cur =
      cur :: (List.replicate n [] ++ splitLoop [' '] rest 0 []) := by
  induction n generalizing cur with
  | zero => simp [splitLoop_space_cons]
  | succ k ih =>
    rw [List.replicate_succ, List.cons_append, splitLoop_space_cons, ih]
    simp [List.replicate_succ]

theorem split_spaced_pair (a b : GoString) (n : Nat) (hsa : ' ' ∉ a) (hsb : ' ' ∉ b) :
    Split (a ++ List.replicate (n + 1) ' ' ++ b) [' '] = [a] ++ List.replicate n [] ++ [b] := by
  have hb := splitLoop_append_of_no_space b [] [] hsb
  simp only [List.append_nil, List.nil_append] at hb
  simp only [Split, List.cons_ne_nil, if_false, List.append_assoc]
  rw [splitLoop_append_of_no_space a _ [] hsa, splitLoop_replicate_space, hb]
  simp [splitLoop]

theorem find?_congr_of_mem {α : Type} (p q : α → Bool) (l : List α)
    (h : ∀ x ∈ l, p x = q x) : l.find? p = l.find? q := by
  induction l with
  | nil => rfl
  | cons x xs ih =>
    have hx := h x (by simp)
    have hxs := ih (fun y hy => h y (List.mem_cons_of_mem _ hy))
    simp [List.find?_cons, hx, hxs]

/-! ## The option validator -/

/-- C1 (amended): for every list of option tokens that contains a token
matching `^(-t|--tag|-f|--file)(=.*)?$`, `checkDockerBuildOptions` returns an
error, and its message is `<tok> is not allowed in --docker-options` where
`<tok>` is the first token of the list that is a reserved flag, bare or
directly followed by `=` and any value; when no token of the list contains a
newline, that token is the first one matching the regular expression. -/
theorem checkDockerBuildOptions_reports_first_reserved (options : List GoString)
    (h : ∃ tok ∈ options, MatchString specPattern tok = true) :
    ∃ tok, options.find? reservedOption = some tok ∧
      checkDockerBuildOptions options =
        some (.errorf (tok ++ " is not allowed in --docker-options".toList)) ∧
      ((∀ t ∈ options, '\n' ∉ t) → options.find? (MatchString specPattern) = some tok) := by
  obtain ⟨t, ht, hm⟩ := h
  have hr := reservedOption_of_specPattern t hm
  cases hf : options.find? reservedOption with
  | none =>
    rw [List.find?_eq_none] at hf
    exact absurd hr (hf t ht)
  | some tok =>
    refine ⟨tok, rfl, ?_, ?_⟩
    · rw [checkDockerBuildOptions_eq_find, hf]
      rfl
    · intro hnl
      rw [← hf]
      apply find?_congr_of_mem
      intro x hx
      rw [Bool.eq_iff_iff]
      exact ⟨reservedOption_of_specPattern x, specPattern_of_reservedOption x (hnl x hx)⟩

/-- Witness of C1 (amended) on `["--rm", "-t=x", "--file"]`. -/
theorem checkDockerBuildOptions_reports_first_reserved_witness :
    (∃ tok ∈ ["--rm".toList, "-t=x".toList, "--file".toList],
        MatchString specPattern tok = true) ∧
      ∃ tok, ["--rm".toList, "-t=x".toList, "--file".toList].find? reservedOption = some tok ∧
        checkDockerBuildOptions ["--rm".toList, "-t=x".toList, "--file".toList] =
          some (.errorf (tok ++ " is not allowed in --docker-options".toList)) ∧
        ((∀ t ∈ ["--rm".toList, "-t=x".toList, "--file".toList], '\n' ∉ t) →
          ["--rm".toList, "-t=x".toList, "--file".toList].find? (MatchString specPattern) =
            some tok) :=
  ⟨⟨"-t=x".toList, by decide, by decide⟩,
    checkDockerBuildOptions_reports_first_reserved _ ⟨"-t=x".toList, by decide, by decide⟩⟩

/-- Counterexample to C1 as stated: in `["-t=a\nb", "-t"]` the first token
matching `^(-t|--tag|-f|--file)(=.*)?$` is `-t`, but the error names
`-t=a\nb`. -/
theorem checkDockerBuildOptions_first_match_counterexample :
    (∃ tok ∈ ["-t=a\nb".toList, "-t".toList], MatchString specPattern tok = true) ∧
      ["-t=a\nb".toList, "-t".toList].find? (MatchString specPattern) = some "-t".toList ∧
      checkDockerBuildOptions ["-t=a\nb".toList, "-t".toList] =
        some (.errorf ("-t=a\nb".toList ++ " is not allowed in --docker-options".toList)) ∧
      checkDockerBuildOptions ["-t=a\nb".toList, "-t".toList] ≠
        some (.errorf ("-t".toList ++ " is not allowed in --docker-options".toList)) := by
  decide

/-- C2 (amended): for every list of option tokens in which no token is a
reserved flag, bare or directly followed by `=` and any value (newlines
included), `checkDockerBuildOptions` returns `nil`. -/
theorem checkDockerBuildOptions_accepts (options : List GoString)
    (h : ∀ tok ∈ options, reservedOption tok = false) :
    checkDockerBuildOptions options = none :=
  (checkDockerBuildOptions_eq_none_iff options).2 h

/-- Witness of C2 (amended) on `["--build-arg", "FOO=bar", "-tevil", ""]`. -/
theorem checkDockerBuildOptions_accepts_witness :
    (∀ tok ∈ ["--build-arg".toList, "FOO=bar".toList, "-tevil".toList, []],
        reservedOption tok = false) ∧
      checkDockerBuildOptions ["--build-arg".toList, "FOO=bar".toList, "-tevil".toList, []] =
        none :=
  ⟨by decide, checkDockerBuildOptions_accepts _ (by decide)⟩

/-- Counterexample to C2 as stated: the token `-t=a\nb` does not match
`^(-t|--tag|-f|--file)(=.*)?$` (`.` stops at the newline and `$` is the end of
the text), yet `checkDockerBuildOptions` rejects it. -/
theorem checkDockerBuildOptions_newline_counterexample :
    (∀ tok ∈ ["-t=a\nb".toList], MatchString specPattern tok = false) ∧
      checkDockerBuildOptions ["-t=a\nb".toList] =
        some (.errorf ("-t=a\nb".toList ++ " is not allowed in --docker-options".toList)) := by
  decide

/-- C3 (amended): for every list of option tokens containing a token that
equals one of `-t`, `--tag`, `-f`, `--file` or is one of them directly followed
by `=` and a value, `checkDockerBuildOptions` returns an error. -/
theorem checkDockerBuildOptions_rejects (options : List GoString)
    (h : ∃ tok ∈ options, ∃ p ∈ reservedFlags, tok = p ∨ ∃ value, tok = p ++ '=' :: value) :
    ∃ err, checkDockerBuildOptions options = some err := by
  obtain ⟨tok, ht, hp⟩ := h
  have hr := (reservedOption_iff tok).2 hp
  cases hc : checkDockerBuildOptions options with
  | some err => exact ⟨err, rfl⟩
  | none =>
    rw [checkDockerBuildOptions_eq_none_iff] at hc
    rw [hc tok ht] at hr
    exact absurd hr (by decide)

/-- Witness of C3 (amended) on `["--rm", "--tag=a\nb"]`. -/
theorem checkDockerBuildOptions_rejects_witness :
    (∃ tok ∈ ["--rm".toList, "--tag=a\nb".toList], ∃ p ∈ reservedFlags,
        tok = p ∨ ∃ value, tok = p ++ '=' :: value) ∧
      ∃ err, checkDockerBuildOptions ["--rm".toList, "--tag=a\nb".toList] = some err :=
  ⟨⟨"--tag=a\nb".toList, by decide, "--tag".toList, by decide, Or.inr ⟨"a\nb".toList, by decide⟩⟩,
    checkDockerBuildOptions_rejects _
      ⟨"--tag=a\nb".toList, by decide, "--tag".toList, by decide,
        Or.inr ⟨"a\nb".toList, by decide⟩⟩⟩

/-- Counterexample to C3 as stated: the token `-tevil` starts with `-t`, and
`checkDockerBuildOptions` accepts the list that holds it. -/
theorem checkDockerBuildOptions_prefix_counterexample :
    (∃ tok ∈ ["-tevil".toList], startsWithReservedFlag tok = true) ∧
      checkDockerBuildOptions ["-tevil".toList] = none := by
  decide

theorem checkDockerBuildOptions_split_nil :
    checkDockerBuildOptions (splitDockerBuildOptions []) = none := by
  decide

theorem userOptions_of_rejected (raw : GoString) (err : GoError)
    (hv : checkDockerBuildOptions (splitDockerBuildOptions raw) = some err) :
    userOptions raw = splitDockerBuildOptions raw := by
  unfold userOptions
  split
  · rename_i h
    rw [h, checkDockerBuildOptions_split_nil] at hv
    exact absurd hv (by simp)
  · rfl

theorem build_calls_of_failed_check (w : Collaborators) (config : buildCommandConfig)
    (err : GoError)
    (hv : checkDockerBuildOptions (userOptions config.dockerBuildOptions) = some err) :
    dockerBuildCalls (build w config).2 = [] ∧ confirmations (build w config).2 = [] := by
  cases hx : w.extract with
  | some e => simp [build_of_extract_failed w config e hx, dockerBuildCalls, confirmations]
  | none =>
    cases hn : w.getProjectName with
    | mk name perr =>
      cases perr with
      | some e =>
        simp [build_of_projectName_failed w config name e hx hn, dockerBuildCalls, confirmations]
      | none => simp [build_of_rejected w config name err hx hn hv, dockerBuildCalls, confirmations]

/-! ## The build command -/

/-- C4: when extraction and project-name resolution succeed and option
validation does not fail, `DockerBuild` is called once, with
`["-t", ImageTag] ++ toks ++ ["-f", descriptorPath, contextDir]`, where
`contextDir` joins the home directory, `extract` and the project name,
`descriptorPath` joins `contextDir` and `Dockerfile`, and `toks` is empty for an
empty `--docker-options` string and otherwise the tokens of the string in
their order (joined with spaces they give back the trimmed string); with empty
options the list is `["-t", ImageTag, "-f", descriptorPath, contextDir]`, and
the context directory is always the last element. -/
theorem build_argument_list (w : Collaborators) (config : buildCommandConfig)
    (name : GoString) (hx : w.extract = none) (hn : w.getProjectName = (name, none))
    (hv : checkDockerBuildOptions (userOptions config.dockerBuildOptions) = none) :
    dockerBuildCalls (build w config).2 =
        [["-t".toList, buildImage config name] ++ userOptions config.dockerBuildOptions ++
          ["-f".toList,
            w.filepathJoin [w.filepathJoin [w.getHome, "extract".toList, name],
              "Dockerfile".toList],
            w.filepathJoin [w.getHome, "extract".toList, name]]] ∧
      (config.dockerBuildOptions = [] →
        dockerBuildCalls (build w config).2 =
          [["-t".toList, buildImage config name, "-f".toList,
            w.filepathJoin [w.filepathJoin [w.getHome, "extract".toList, name],
              "Dockerfile".toList],
            w.filepathJoin [w.getHome, "extract".toList, name]]]) ∧
      (config.dockerBuildOptions ≠ [] →
        userOptions config.dockerBuildOptions =
            Split (TrimSuffix (TrimPrefix config.dockerBuildOptions " ".toList) " ".toList)
              " ".toList ∧
          Join (userOptions config.dockerBuildOptions) " ".toList =
            TrimSuffix (TrimPrefix config.dockerBuildOptions " ".toList) " ".toList) ∧
      (∀ args ∈ dockerBuildCalls (build w config).2,
        args.getLast? = some (w.filepathJoin [w.getHome, "extract".toList, name])) := by
  have hcalls : dockerBuildCalls (build w config).2 =
      [cmdArgs w config name (userOptions config.dockerBuildOptions)] := by
    rw [build_of_accepted w config name hx hn hv]
    split <;> simp [dockerBuildCalls]
  refine ⟨hcalls, ?_, ?_, ?_⟩
  · intro h
    rw [hcalls]
    simp [cmdArgs, userOptions, h, dockerfile, extractDir]
  · intro h
    refine ⟨by simp [userOptions, h, splitDockerBuildOptions], ?_⟩
    simp only [userOptions, h, if_false, splitDockerBuildOptions]
    exact join_split _
  · intro args hargs
    rw [hcalls, List.mem_singleton] at hargs
    have hlast : cmdArgs w config name (userOptions config.dockerBuildOptions) =
        (["-t".toList, buildImage config name] ++ userOptions config.dockerBuildOptions ++
          ["-f".toList, dockerfile w name]) ++ [extractDir w name] := by
      simp [cmdArgs]
    rw [hargs, hlast, List.getLast?_append_of_ne_nil _ (List.cons_ne_nil _ _)]
    rfl

/-- Witness of C4: the sample run with `--docker-options " --build-arg FOO=bar "`. -/
theorem build_argument_list_witness :
    (sampleRun.extract = none ∧ sampleRun.getProjectName = ("myapp".toList, none) ∧
      checkDockerBuildOptions (userOptions sampleConfig.dockerBuildOptions) = none) ∧
    dockerBuildCalls (build sampleRun sampleConfig).2 =
      [["-t".toList, "myapp".toList, "--build-arg".toList, "FOO=bar".toList, "-f".toList,
        "/home/user/.appsody/extract/myapp/Dockerfile".toList,
        "/home/user/.appsody/extract/myapp".toList]] :=
  ⟨⟨rfl, rfl, by decide⟩,
    (build_argument_list sampleRun sampleConfig "myapp".toList rfl rfl (by decide)).1.trans
      (by decide)⟩

/-- C5 (amended): when the `--docker-options` string splits into a token list
that the validator rejects, `DockerBuild` is never called and no confirmation
is logged; when moreover extraction and project-name resolution succeed,
`build` returns the validator's error. -/
theorem build_rejected_options (w : Collaborators) (config : buildCommandConfig)
    (err : GoError)
    (hv : checkDockerBuildOptions (splitDockerBuildOptions config.dockerBuildOptions) =
      some err) :
    dockerBuildCalls (build w config).2 = [] ∧ confirmations (build w config).2 = [] ∧
      (w.extract = none → w.getProjectName.2 = none → (build w config).1 = some err) := by
  have hu : checkDockerBuildOptions (userOptions config.dockerBuildOptions) = some err := by
    rw [userOptions_of_rejected _ err hv]
    exact hv
  obtain ⟨hcalls, hconf⟩ := build_calls_of_failed_check w config err hu
  refine ⟨hcalls, hconf, ?_⟩
  intro hx hn
  have hn' : w.getProjectName = (w.getProjectName.1, none) := by
    rw [← hn]
  rw [build_of_rejected w config _ err hx hn' hu]

/-- Witness of C5 (amended): the sample run with `--docker-options "-t evil"`. -/
theorem build_rejected_options_witness :
    checkDockerBuildOptions (splitDockerBuildOptions "-t evil".toList) =
        some (.errorf "-t is not allowed in --docker-options".toList) ∧
      dockerBuildCalls (build sampleRun ⟨⟨false, false⟩, [], "-t evil".toList⟩).2 = [] ∧
      confirmations (build sampleRun ⟨⟨false, false⟩, [], "-t evil".toList⟩).2 = [] ∧
      (sampleRun.extract = none → sampleRun.getProjectName.2 = none →
        (build sampleRun ⟨⟨false, false⟩, [], "-t evil".toList⟩).1 =
          some (.errorf "-t is not allowed in --docker-options".toList)) :=
  ⟨by decide,
    build_rejected_options sampleRun ⟨⟨false, false⟩, [], "-t evil".toList⟩
      (.errorf "-t is not allowed in --docker-options".toList) (by decide)⟩

/-- Counterexample to C5 as stated: with `--docker-options "-t evil"` the
validator rejects the tokens, but when `extract` fails first `build` returns
the extractor's error and not the validator's. -/
theorem build_rejected_options_counterexample :
    checkDockerBuildOptions (splitDockerBuildOptions "-t evil".toList) =
        some (.errorf "-t is not allowed in --docker-options".toList) ∧
      (build failedExtractRun ⟨⟨false, false⟩, [], "-t evil".toList⟩).1 =
        some (.external 0 "extract failed".toList) ∧
      (build failedExtractRun ⟨⟨false, false⟩, [], "-t evil".toList⟩).1 ≠
        checkDockerBuildOptions (splitDockerBuildOptions "-t evil".toList) := by
  decide

/-- C6: once the project name is resolved, every argument list handed to
`DockerBuild` starts with `-t` and the image tag, and every confirmation names
the image tag, where the image tag is the user-supplied tag when that is
non-empty and the project name when it is empty; when option validation does
not fail, there is such an argument list. -/
theorem build_image_tag (w : Collaborators) (config : buildCommandConfig) (name : GoString)
    (hx : w.extract = none) (hn : w.getProjectName = (name, none)) :
    (∀ args ∈ dockerBuildCalls (build w config).2,
        ∃ rest, args = "-t".toList :: (if config.tag = [] then name else config.tag) :: rest) ∧
      (∀ msg ∈ confirmations (build w config).2,
        msg = ["Built docker image ".toList, if config.tag = [] then name else config.tag]) ∧
      (checkDockerBuildOptions (userOptions config.dockerBuildOptions) = none →
        dockerBuildCalls (build w config).2 ≠ []) := by
  have himg : buildImage config name = if config.tag = [] then name else config.tag := by
    unfold buildImage
    by_cases h : config.tag = [] <;> simp [h]
  rw [← himg]
  cases hv : checkDockerBuildOptions (userOptions config.dockerBuildOptions) with
  | some err =>
    obtain ⟨hcalls, hconf⟩ := build_calls_of_failed_check w config err hv
    simp [hcalls, hconf]
  | none =>
    rw [build_of_accepted w config name hx hn hv]
    refine ⟨?_, ?_, ?_⟩
    · intro args hargs
      refine ⟨userOptions config.dockerBuildOptions ++
        ["-f".toList, dockerfile w name, extractDir w name], ?_⟩
      split at hargs <;> simp [dockerBuildCalls] at hargs <;> simp [hargs, cmdArgs]
    · intro msg hmsg
      split at hmsg <;> simp [confirmations] at hmsg
      exact hmsg
    · intro _
      split <;> simp [dockerBuildCalls]

/-- Witness of C6: the sample run with the tag `custom:v1`, and without a
tag. -/
theorem build_image_tag_witness :
    (sampleRun.extract = none ∧ sampleRun.getProjectName = ("myapp".toList, none)) ∧
      dockerBuildCalls (build sampleRun ⟨⟨false, false⟩, "custom:v1".toList, []⟩).2 =
        ["-t".toList :: "custom:v1".toList ::
          ["-f".toList, "/home/user/.appsody/extract/myapp/Dockerfile".toList,
            "/home/user/.appsody/extract/myapp".toList]] ∧
      (∀ msg ∈ confirmations (build sampleRun ⟨⟨false, false⟩, "custom:v1".toList, []⟩).2,
        msg = ["Built docker image ".toList, "custom:v1".toList]) ∧
      dockerBuildCalls (build sampleRun ⟨⟨false, false⟩, [], []⟩).2 =
        ["-t".toList :: "myapp".toList ::
          ["-f".toList, "/home/user/.appsody/extract/myapp/Dockerfile".toList,
            "/home/user/.appsody/extract/myapp".toList]] ∧
      ∀ msg ∈ confirmations (build sampleRun ⟨⟨false, false⟩, [], []⟩).2,
        msg = ["Built docker image ".toList, "myapp".toList] :=
  ⟨⟨rfl, rfl⟩, by decide,
    (build_image_tag sampleRun ⟨⟨false, false⟩, "custom:v1".toList, []⟩ "myapp".toList
      rfl rfl).2.1,
    by decide,
    (build_image_tag sampleRun ⟨⟨false, false⟩, [], []⟩ "myapp".toList rfl rfl).2.1⟩

/-- C7: the splitter removes one leading and one trailing space (and no more)
and then splits on single spaces, so for every non-empty list `ts` of
space-free strings the options string `" " + join(ts, " ") + " "` is split into
exactly `ts`; when `ts` passes validation in a run whose extraction and
project-name resolution succeed, `DockerBuild` receives `ts` between the tag
pair and the descriptor-file pair. -/
theorem splitDockerBuildOptions_wrapped_join (ts : List GoString) (hne : ts ≠ [])
    (hts : ∀ t ∈ ts, ' ' ∉ t) :
    (∀ s : GoString, TrimPrefix (' ' :: s) " ".toList = s) ∧
      (∀ s : GoString, TrimSuffix (s ++ [' ']) " ".toList = s) ∧
      splitDockerBuildOptions (" ".toList ++ Join ts " ".toList ++ " ".toList) = ts ∧
      ∀ (w : Collaborators) (config : buildCommandConfig) (name : GoString),
        config.dockerBuildOptions = " ".toList ++ Join ts " ".toList ++ " ".toList →
        w.extract = none → w.getProjectName = (name, none) →
        checkDockerBuildOptions ts = none →
        dockerBuildCalls (build w config).2 =
          [["-t".toList, buildImage config name] ++ ts ++
            ["-f".toList, dockerfile w name, extractDir w name]] := by
  have hsplit :
      splitDockerBuildOptions (" ".toList ++ Join ts " ".toList ++ " ".toList) = ts := by
    unfold splitDockerBuildOptions
    show Split (TrimSuffix (TrimPrefix (' ' :: (Join ts [' '] ++ [' '])) [' ']) [' ']) [' '] = ts
    rw [trimPrefix_space_cons, trimSuffix_append_space]
    exact split_join_of_no_space ts hne hts
  refine ⟨trimPrefix_space_cons, trimSuffix_append_space, hsplit, ?_⟩
  intro w config name hraw hx hn hv
  have hu : userOptions config.dockerBuildOptions = ts := by
    unfold userOptions
    rw [hraw, if_neg (by simp [String.toList]), hsplit]
  have hv' : checkDockerBuildOptions (userOptions config.dockerBuildOptions) = none := by
    rw [hu]
    exact hv
  rw [build_of_accepted w config name hx hn hv', hu]
  split <;> simp [dockerBuildCalls, cmdArgs]

/-- Witness of C7: `" --build-arg FOO=bar "` gives `["--build-arg", "FOO=bar"]`. -/
theorem splitDockerBuildOptions_wrapped_join_witness :
    (["--build-arg".toList, "FOO=bar".toList] ≠ [] ∧
      ∀ t ∈ ["--build-arg".toList, "FOO=bar".toList], ' ' ∉ t) ∧
    splitDockerBuildOptions " --build-arg FOO=bar ".toList =
      ["--build-arg".toList, "FOO=bar".toList] :=
  ⟨⟨by decide, by decide⟩,
    (splitDockerBuildOptions_wrapped_join ["--build-arg".toList, "FOO=bar".toList]
      (by decide) (by decide)).2.2.1⟩

/-- C8: `build` logs the confirmation `Built docker image <ImageTag>` exactly
when extraction, project-name resolution, option validation and `DockerBuild`
all succeed and dry-run is off, and then logs it once; in dry-run mode or
after any failure it logs no confirmation. -/
theorem build_confirmation (w : Collaborators) (config : buildCommandConfig) :
    confirmations (build w config).2 =
      if w.extract = none ∧ w.getProjectName.2 = none ∧
          checkDockerBuildOptions (userOptions config.dockerBuildOptions) = none ∧
          w.DockerBuild
            (["-t".toList, buildImage config w.getProjectName.1] ++
              userOptions config.dockerBuildOptions ++
              ["-f".toList, dockerfile w w.getProjectName.1, extractDir w w.getProjectName.1])
            config.root.Verbose config.root.Dryrun = none ∧
          config.root.Dryrun = false
      then [["Built docker image ".toList, buildImage config w.getProjectName.1]]
      else [] := by
  cases hx : w.extract with
  | some e => simp [build_of_extract_failed w config e hx, confirmations]
  | none =>
    cases hn : w.getProjectName with
    | mk name perr =>
      cases perr with
      | some e => simp [build_of_projectName_failed w config name e hx hn, confirmations]
      | none =>
        cases hv : checkDockerBuildOptions (userOptions config.dockerBuildOptions) with
        | some err => simp [build_of_rejected w config name err hx hn hv, confirmations]
        | none =>
          rw [build_of_accepted w config name hx hn hv]
          simp only [cmdArgs, true_and]
          split <;> simp [confirmations]

/-- C9: when `extract` fails with error `e`, `build` returns exactly `e` and
makes no further call: `getProjectName` and `DockerBuild` are not called and
no confirmation is logged. -/
theorem build_extract_error (w : Collaborators) (config : buildCommandConfig) (e : GoError)
    (hx : w.extract = some e) :
    (build w config).1 = some e ∧ (build w config).2 = [.extract] ∧
      Event.getProjectName ∉ (build w config).2 ∧
      dockerBuildCalls (build w config).2 = [] ∧ confirmations (build w config).2 = [] := by
  rw [build_of_extract_failed w config e hx]
  simp [dockerBuildCalls, confirmations]

/-- Witness of C9: the run whose extraction fails. -/
theorem build_extract_error_witness :
    failedExtractRun.extract = some (.external 0 "extract failed".toList) ∧
      (build failedExtractRun sampleConfig).1 = some (.external 0 "extract failed".toList) ∧
      (build failedExtractRun sampleConfig).2 = [.extract] ∧
      Event.getProjectName ∉ (build failedExtractRun sampleConfig).2 ∧
      dockerBuildCalls (build failedExtractRun sampleConfig).2 = [] ∧
      confirmations (build failedExtractRun sampleConfig).2 = [] :=
  ⟨rfl, build_extract_error failedExtractRun sampleConfig _ rfl⟩

/-- C10: consecutive internal spaces yield empty-string tokens that pass
validation and reach the external tool: for non-empty, space-free tokens `a`
and `b` that the validator accepts and `n ≥ 1`, the argument list that a build
with the options string `a`, `n` spaces, `b` hands to `DockerBuild` is
`["-t", ImageTag, a]`, `n - 1` empty strings and
`[b, "-f", descriptorPath, contextDir]`, and it is handed over (once) whenever
extraction and project-name resolution succeed; a list of empty-string tokens
is never rejected by `checkDockerBuildOptions`. -/
theorem build_consecutive_spaces (w : Collaborators) (config : buildCommandConfig)
    (a b : GoString) (n : Nat)
    (ha : a ≠ []) (hb : b ≠ []) (hsa : ' ' ∉ a) (hsb : ' ' ∉ b)
    (hva : checkDockerBuildOptions [a] = none) (hvb : checkDockerBuildOptions [b] = none)
    (hn1 : 1 ≤ n) (hraw : config.dockerBuildOptions = a ++ List.replicate n ' ' ++ b) :
    (∀ args ∈ dockerBuildCalls (build w config).2,
        args = ["-t".toList, buildImage config w.getProjectName.1, a] ++
          List.replicate (n - 1) [] ++
          [b, "-f".toList, dockerfile w w.getProjectName.1, extractDir w w.getProjectName.1]) ∧
      (w.extract = none → w.getProjectName.2 = none →
        dockerBuildCalls (build w config).2 =
          [["-t".toList, buildImage config w.getProjectName.1, a] ++
            List.replicate (n - 1) [] ++
            [b, "-f".toList, dockerfile w w.getProjectName.1,
              extractDir w w.getProjectName.1]]) ∧
      ∀ k, checkDockerBuildOptions (List.replicate k []) = none := by
  have hempty : ∀ k, checkDockerBuildOptions (List.replicate k []) = none := by
    intro k
    rw [checkDockerBuildOptions_eq_none_iff]
    intro tok htok
    rw [List.eq_of_mem_replicate htok]
    decide
  obtain ⟨m, rfl⟩ : ∃ m, n = m + 1 := ⟨n - 1, by omega⟩
  have hne : config.dockerBuildOptions ≠ [] := by
    rw [hraw]
    simp [ha]
  have hu : userOptions config.dockerBuildOptions = [a] ++ List.replicate m [] ++ [b] := by
    unfold userOptions splitDockerBuildOptions
    rw [if_neg hne, hraw]
    show Split (TrimSuffix (TrimPrefix (a ++ List.replicate (m + 1) ' ' ++ b) [' ']) [' '])
      [' '] = _
    rw [List.append_assoc, trimPrefix_of_no_space a _ ha hsa, ← List.append_assoc,
      trimSuffix_of_no_space _ b hb hsb]
    exact split_spaced_pair a b m hsa hsb
  have hv : checkDockerBuildOptions (userOptions config.dockerBuildOptions) = none := by
    rw [hu, checkDockerBuildOptions_eq_none_iff]
    rw [checkDockerBuildOptions_eq_none_iff] at hva hvb
    intro tok htok
    simp only [List.mem_append, List.mem_singleton] at htok
    rcases htok with (h | h) | h
    · exact hva tok (by simp [h])
    · rw [List.eq_of_mem_replicate h]
      decide
    · exact hvb tok (by simp [h])
  have hok : w.extract = none → w.getProjectName.2 = none →
      dockerBuildCalls (build w config).2 =
        [["-t".toList, buildImage config w.getProjectName.1, a] ++
          List.replicate (m + 1 - 1) [] ++
          [b, "-f".toList, dockerfile w w.getProjectName.1,
            extractDir w w.getProjectName.1]] := by
    intro hx hn
    have hn' : w.getProjectName = (w.getProjectName.1, none) := by
      rw [← hn]
    rw [build_of_accepted w config _ hx hn' hv, hu]
    split <;> simp [dockerBuildCalls, cmdArgs]
  refine ⟨?_, hok, hempty⟩
  intro args hargs
  cases hx : w.extract with
  | some e =>
    rw [build_of_extract_failed w config e hx] at hargs
    simp [dockerBuildCalls] at hargs
  | none =>
    cases hp : w.getProjectName.2 with
    | some e =>
      have hn' : w.getProjectName = (w.getProjectName.1, some e) := by
        rw [← hp]
      rw [build_of_projectName_failed w config _ e hx hn'] at hargs
      simp [dockerBuildCalls] at hargs
    | none =>
      rw [hok hx hp, List.mem_singleton] at hargs
      exact hargs

/-- Witness of C10: the sample run with `--docker-options "--rm   -q"`. -/
theorem build_consecutive_spaces_witness :
    ("--rm".toList ≠ [] ∧ "-q".toList ≠ [] ∧ ' ' ∉ "--rm".toList ∧ ' ' ∉ "-q".toList ∧
      checkDockerBuildOptions ["--rm".toList] = none ∧
      checkDockerBuildOptions ["-q".toList] = none ∧ 1 ≤ 3 ∧
      "--rm   -q".toList = "--rm".toList ++ List.replicate 3 ' ' ++ "-q".toList) ∧
    dockerBuildCalls (build sampleRun ⟨⟨false, false⟩, [], "--rm   -q".toList⟩).2 =
      [["-t".toList, "myapp".toList, "--rm".toList, [], [], "-q".toList, "-f".toList,
        "/home/user/.appsody/extract/myapp/Dockerfile".toList,
        "/home/user/.appsody/extract/myapp".toList]] :=
  ⟨⟨by decide, by decide, by decide, by decide, by decide, by decide, by decide, by decide⟩,
    ((build_consecutive_spaces sampleRun ⟨⟨false, false⟩, [], "--rm   -q".toList⟩
      "--rm".toList "-q".toList 3 (by decide) (by decide) (by decide)
      (by decide) (by decide) (by decide) (by decide) (by decide)).2.1 rfl rfl).trans
      (by decide)⟩

end Appsody
